import Mathlib

/-!
Verification of the context-assembly and prompt-compression pipeline of a
university-admissions chatbot backend (`backend/utils.py`, `backend/ingest.py`,
`backend/scaledown.py`, `backend/app.py`).

Python `str` values are modelled as `List Char` (a Python string is a sequence
of code points).  Whitespace is modelled by the ASCII whitespace characters
recognised by Python's `str.split()` / `str.strip()`.  Machine reals used for
ratios are modelled exactly by `Rat` (the ratio computations of the source are
exact divisions of integers / lengths).  Wall-clock instants are modelled as
integral seconds.
-/

/-- Python strings, modelled as lists of characters. -/
abbrev PyStr := List Char

/-- ASCII whitespace as recognised by Python's `str.split()` and `str.strip()`
(space, tab, newline, carriage return, vertical tab, form feed). -/
def isPySpace (c : Char) : Bool :=
  c = ' ' || c = '\t' || c = '\n' || c = '\r' || c = '\x0b' || c = '\x0c'

/-- Worker for `pyWords`: scans the input, accumulating the current word in
reversed order in `acc`, emitting it when whitespace or the end is reached.
Together with `pyWords` this models Python's no-argument `str.split()`. -/
def pyWordsAux : List Char → List Char → List (List Char)
  | [], [] => []
  | [], acc@(_ :: _) => [acc.reverse]
  | c :: cs, acc =>
    if isPySpace c then
      match acc with
      | [] => pyWordsAux cs []
      | _ :: _ => acc.reverse :: pyWordsAux cs []
    else pyWordsAux cs (c :: acc)

/-- Python `text.split()` (no separator): maximal runs of non-whitespace. -/
def pyWords (l : List Char) : List (List Char) := pyWordsAux l []

/-- Python `text.replace('\x00', '')`. -/
def removeNulls (l : List Char) : List Char := l.filter (fun c => c ≠ '\x00')

/-- Python `text.strip()`: drop whitespace from both ends. -/
def pyStrip (l : List Char) : List Char :=
  ((l.dropWhile isPySpace).reverse.dropWhile isPySpace).reverse

/-- `utils.sanitize_text` (utils.py:81-100): on falsy (empty) input return `""`;
otherwise `' '.join(text.split())`, then remove null bytes, then `strip()`. -/
def sanitize_text (text : PyStr) : PyStr :=
  if text = [] then []
  else pyStrip (removeNulls (List.intercalate [' '] (pyWords text)))

/-- `p` is a prefix of `l` (Boolean). -/
def isPre : List Char → List Char → Bool
  | [], _ => true
  | _ :: _, [] => false
  | a :: as, b :: bs => a = b && isPre as bs

/-- `p` occurs as a contiguous substring of `l` (Python's `p in l`). -/
def occursIn (p : List Char) : List Char → Bool
  | [] => isPre p []
  | c :: rest => isPre p (c :: rest) || occursIn p rest

/-- Split a character list at every newline (Python `s.split('\n')`);
always returns at least one (possibly empty) line. -/
def splitNl : List Char → List (List Char)
  | [] => [[]]
  | c :: rest =>
    if c = '\n' then [] :: splitNl rest
    else
      match splitNl rest with
      | [] => [[c]]
      | l :: ls => (c :: l) :: ls

/-- One successfully extracted local document as consumed by `merge_data`:
the `filename` and sanitized `content` fields of its result dict. -/
structure FileDoc where
  filename : PyStr
  content : PyStr

/-- One scraped page as consumed by `merge_data`: its `url` and sanitized
`content` fields. -/
structure ScrapedDoc where
  url : PyStr
  content : PyStr

/-- The local-files section header emitted by `merge_data` (ingest.py:307). -/
def localHeader : PyStr := ("=== UNIVERSITY DATA FROM LOCAL FILES ===\n").data

/-- The live-data section header emitted by `merge_data` (ingest.py:316). -/
def liveHeader : PyStr := ("\n\n=== LIVE DATA FROM UNIVERSITY WEBSITE ===\n").data

/-- The single text line of the live-data header (no newlines). -/
def liveCore : PyStr := ("=== LIVE DATA FROM UNIVERSITY WEBSITE ===").data

/-- Per-file sub-header emitted by `merge_data` (ingest.py:311). -/
def fileSubheader (f : FileDoc) : PyStr :=
  ("\n--- ").data ++ f.filename ++ (" ---\n").data

/-- Per-source sub-header emitted by `merge_data` (ingest.py:319). -/
def scrapedSubheader (s : ScrapedDoc) : PyStr :=
  ("\n--- From ").data ++ s.url ++ (" ---\n").data

/-- The list parts contributed by the local documents, in iteration order. -/
def localParts (localDocs : List FileDoc) : List PyStr :=
  (localDocs.map (fun f => [fileSubheader f, f.content])).flatten

/-- The list parts contributed by the scraped pages, in iteration order. -/
def webParts (web : List ScrapedDoc) : List PyStr :=
  (web.map (fun s => [scrapedSubheader s, s.content])).flatten

/-- `ingest.merge_data` (ingest.py:293-325): appends the local header, then
per-file sub-header and content for each local document; if any scraped data
exists, appends the live-data header, then per-source sub-header and content;
finally joins all parts with `'\n'`. -/
def merge_data (localDocs : List FileDoc) (web : List ScrapedDoc) : PyStr :=
  List.intercalate ['\n']
    ([localHeader] ++ localParts localDocs ++
      (if web.isEmpty then [] else [liveHeader] ++ webParts web))

/-- The emptiness test `if not context` applied by `app.chat` (app.py:132) to
the merged context before refusing a request. -/
def app_no_context (context : PyStr) : Bool := context.isEmpty

/-- A parsed JSON value, as produced by `response.json()` /  `json.load`.
Numbers are modelled as integers (the integral values relevant here). -/
inductive JVal where
  | jnull : JVal
  | jbool : Bool → JVal
  | jnum : Int → JVal
  | jstr : String → JVal
  | jarr : List JVal → JVal
  | jobj : List (String × JVal) → JVal

/-- First-match association lookup inside a JSON object. -/
def jlookup : List (String × JVal) → String → Option JVal
  | [], _ => none
  | (k', v) :: rest, k => if k' = k then some v else jlookup rest k

/-- Python `d.get(k, default)` for a value already known to be a dict
(callers branch on `JVal.jobj` first, mirroring the `AttributeError` a
non-dict value would raise). -/
def jget0 (v : JVal) (k : String) (dflt : JVal) : JVal :=
  match v with
  | .jobj fs => (jlookup fs k).getD dflt
  | _ => dflt

/-- Python truthiness of a JSON value (`bool(v)`). -/
def pyTruthy : JVal → Bool
  | .jnull => false
  | .jbool b => b
  | .jnum n => n ≠ 0
  | .jstr s => s ≠ ""
  | .jarr xs => !xs.isEmpty
  | .jobj fs => !fs.isEmpty

/-- Coerce a JSON value to an integer the way Python's arithmetic and
comparison operators do (`bool` counts as 0/1); any other type raises
`TypeError`. -/
def pyToIntOrd : JVal → Except String Int
  | .jnum n => .ok n
  | .jbool b => .ok (if b then 1 else 0)
  | .jnull => .error "TypeError: NoneType is not orderable with int"
  | .jstr _ => .error "TypeError: str is not orderable with int"
  | .jarr _ => .error "TypeError: list is not orderable with int"
  | .jobj _ => .error "TypeError: dict is not orderable with int"

/-- Python `v > 0` on a JSON value. -/
def pyGt0 (v : JVal) : Except String Bool :=
  match pyToIntOrd v with
  | .error m => .error m
  | .ok n => .ok (decide (0 < n))

/-- Python `a - b` on JSON values (raises `TypeError` on non-numbers). -/
def pySub (a b : JVal) : Except String Int :=
  match pyToIntOrd a with
  | .error m => .error m
  | .ok x =>
    match pyToIntOrd b with
    | .error m => .error m
    | .ok y => .ok (x - y)

/-- Python `a / b` on JSON values: true division, exact value as a rational. -/
def pyDivQ (a b : JVal) : Except String Rat :=
  match pyToIntOrd a with
  | .error m => .error m
  | .ok x =>
    match pyToIntOrd b with
    | .error m => .error m
    | .ok y =>
      if y = 0 then .error "ZeroDivisionError: division by zero"
      else .ok ((x : Rat) / (y : Rat))

/-- Python `len(v)`: length of a string, list or dict; `TypeError` otherwise. -/
def pyLen : JVal → Except String Nat
  | .jstr s => .ok s.length
  | .jarr xs => .ok xs.length
  | .jobj fs => .ok fs.length
  | .jnull => .error "TypeError: object of type NoneType has no len"
  | .jbool _ => .error "TypeError: object of type bool has no len"
  | .jnum _ => .error "TypeError: object of type int has no len"

/-- The `result` dict built by `ScaledownCompressor.compress`
(scaledown.py:71-79).  Fields extracted from the response keep the dynamic
type the JSON carried; `compressionRat` models the float field
`compression_ratio` exactly as a rational. -/
structure PyResult where
  compressed_prompt : JVal
  original_tokens : JVal
  compressed_tokens : JVal
  compressionRat : Rat
  successful : JVal
  error : Option String
  latency_ms : JVal

/-- The initial `result` dict of `compress` (scaledown.py:71-79). -/
def initResult : PyResult :=
  { compressed_prompt := .jstr ""
  , original_tokens := .jnum 0
  , compressed_tokens := .jnum 0
  , compressionRat := 1
  , successful := .jbool false
  , error := none
  , latency_ms := .jnum 0 }

/-- `ScaledownCompressor` (scaledown.py:20-41): the configuration consulted by
`compress`.  `api_key = ""` models a missing key (Python falsiness of
`None`/`""`); the URL, model and rate only shape the outgoing request, which
is abstracted by `NetPhase`. -/
structure ScaledownCompressor where
  api_key : String
  api_url : String
  default_model : String
  default_rate : String
  timeout : Nat

/-- Outcome of the network/parse phase of `compress`
(scaledown.py:107-118): either one of the exception categories raised by
`requests.post` / `raise_for_status` / `response.json()`, or a parsed JSON
body. -/
inductive NetPhase where
  | timeout : NetPhase
  | httpError : Nat → String → NetPhase
  | requestFailed : String → NetPhase
  | jsonDecodeFailed : String → NetPhase
  | parsed : JVal → NetPhase

/-- The ratio computation of `compress` (scaledown.py:130-138), operating on
the partially filled `result`; an exception leaves `result` unchanged because
the assignment happens after the raising expression. -/
def ratioPhase (context prompt : String) (r : PyResult) : Except String PyResult :=
  match pyGt0 r.original_tokens with
  | .error m => .error m
  | .ok bo =>
    match (if bo then pyGt0 r.compressed_tokens else .ok false) with
    | .error m => .error m
    | .ok cond =>
      if cond then
        match pyDivQ r.original_tokens r.compressed_tokens with
        | .error m => .error m
        | .ok q => .ok { r with compressionRat := q }
      else
        if pyTruthy r.compressed_prompt then
          match pyLen r.compressed_prompt with
          | .error m => .error m
          | .ok compressedLength =>
            .ok { r with compressionRat :=
              if 0 < compressedLength then
                ((context.length + prompt.length : Nat) : Rat) / (compressedLength : Rat)
              else 1 }
        else
          .ok r

/-- `utils.format_compression_stats` (utils.py:236-258) as called at
scaledown.py:141, tracked only for the exception it can raise:
`original - compressed` raises `TypeError` when `original > 0` succeeded but
`compressed` is not numeric.  (When it returns, its string result is only
logged.) -/
def formatStatsPhase (r : PyResult) : Except String Unit :=
  match pyGt0 r.original_tokens with
  | .error m => .error m
  | .ok bo =>
    if bo then
      match pySub r.original_tokens r.compressed_tokens with
      | .error m => .error m
      | .ok _ => .ok ()
    else
      .ok ()

/-- The response-processing of `compress` (scaledown.py:118-145) on a parsed
JSON body: mirrors the sequence of statements, returning the `result` as
mutated so far together with the message of the first exception, if any.
`data.get` raises `AttributeError` when `data` is not a dict (before any
assignment); `results.get` likewise (after no assignment); the five
assignments from dict `get`s cannot raise; the ratio computation and the
statistics formatting can raise after `successful` has been assigned. -/
def processResponse (context prompt : String) (r : PyResult) (data : JVal) :
    PyResult × Option String :=
  match data with
  | .jobj _ =>
    match jget0 data "results" (.jobj []) with
    | .jobj gs =>
      let r1 := { r with
        compressed_prompt := jget0 (.jobj gs) "compressed_prompt" (.jstr "")
        , original_tokens := jget0 data "total_original_tokens" (.jnum 0)
        , compressed_tokens := jget0 data "total_compressed_tokens" (.jnum 0)
        , latency_ms := jget0 data "latency_ms" (.jnum 0)
        , successful := jget0 data "successful" (.jbool false) }
      match ratioPhase context prompt r1 with
      | .error m => (r1, some m)
      | .ok r' =>
        match formatStatsPhase r' with
        | .error m => (r', some m)
        | .ok _ => (r', none)
    | _ => (r, some "AttributeError: response results value has no attribute get")
  | _ => (r, some "AttributeError: response body value has no attribute get")

/-- The naive uncompressed fallback prompt
`f"{context}\n\nUser Query: {prompt}"` (scaledown.py:84,151,157,163,169,175). -/
def fallbackPrompt (context prompt : String) : String :=
  context ++ "\n\nUser Query: " ++ prompt

/-- `ScaledownCompressor.compress` (scaledown.py:44-177).  The network call
and JSON parse are abstracted by `net : NetPhase`; each `except` branch sets a
category-specific error message and overwrites `compressed_prompt` with the
naive fallback, leaving the other fields as already assigned. -/
def ScaledownCompressor.compress (self : ScaledownCompressor)
    (context prompt : String) (net : NetPhase) : PyResult :=
  let fb : PyResult → String → PyResult := fun r m =>
    { r with error := some m, compressed_prompt := .jstr (fallbackPrompt context prompt) }
  if self.api_key = "" then
    { initResult with
        compressed_prompt := .jstr (fallbackPrompt context prompt)
        , error := some "API key not configured" }
  else
    match net with
    | .timeout =>
      fb initResult ("Scaledown API timeout after " ++ toString self.timeout ++ "s")
    | .httpError status body =>
      fb initResult ("Scaledown API HTTP error: " ++ toString status ++ " - " ++ body)
    | .requestFailed m =>
      fb initResult ("Scaledown API request failed: " ++ m)
    | .jsonDecodeFailed m =>
      fb initResult ("Failed to parse Scaledown API response: " ++ m)
    | .parsed data =>
      match processResponse context prompt initResult data with
      | (r, some m) => fb r ("Unexpected error in Scaledown compression: " ++ m)
      | (r, none) => r

/-- The result dict of `extract_text_from_txt` (ingest.py:101-106):
`{filename, content, metadata.encoding, error}`. -/
structure TxtDoc where
  filename : String
  content : PyStr
  encoding : Option String
  error : Option String

/-- The fixed encoding sequence tried by `extract_text_from_txt`
(ingest.py:114). -/
def txtEncodings : List String := ["utf-8", "latin-1", "cp1252"]

/-- The decode loop of `extract_text_from_txt` (ingest.py:116-125): try each
encoding in order; the first successful decode wins (`break`); a
`UnicodeDecodeError` moves to the next encoding.  `decode enc` is the decoded
text of the file's bytes under `enc`, or `none` on a decode error. -/
def tryEncodings (decode : String → Option PyStr) : List String → Option (PyStr × String)
  | [] => none
  | e :: es =>
    match decode e with
    | some c => some (c, e)
    | none => tryEncodings decode es

/-- ASCII lower-casing of one character (the case arising for file
suffixes in Python's `str.lower()`). -/
def lowerChar (c : Char) : Char :=
  if 'A' ≤ c && c ≤ 'Z' then Char.ofNat (c.toNat + 32) else c

/-- Python `s.lower()` on ASCII strings such as file suffixes. -/
def pyLower (s : String) : String := ⟨s.data.map lowerChar⟩

/-- `utils.validate_file_path` (utils.py:56-79) specialised to one allowed
extension: the file exists, is a regular file, and its lower-cased suffix
matches. -/
def validate_file_path (pathExists isFile : Bool) (suffix : String)
    (ext : String) : Bool :=
  pathExists && isFile && (pyLower suffix = ext)

/-- `ingest.extract_text_from_txt` (ingest.py:91-134).  The filesystem is
abstracted by the validity flags and the per-encoding decode oracle.  On an
invalid path the error is set immediately; otherwise the first successful
decode is sanitized and its encoding recorded; if the resulting content is
falsy (no decode succeeded, or the sanitized text is empty) the error
`"Failed to decode text file"` is set. -/
def extract_text_from_txt (pathExists isFile : Bool) (suffix : String)
    (filename : String) (decode : String → Option PyStr) : TxtDoc :=
  let base : TxtDoc := { filename := filename, content := [], encoding := none, error := none }
  if !(validate_file_path pathExists isFile suffix ".txt") then
    { base with error := some "Invalid TXT file path" }
  else
    let r :=
      match tryEncodings decode txtEncodings with
      | none => base
      | some (c, e) => { base with content := sanitize_text c, encoding := some e }
    if r.content = [] then { r with error := some "Failed to decode text file" }
    else r

/-- An extracted document as produced by `extract_text_from_pdf` /
`extract_text_from_txt` and consumed by `load_local_data`: only the fields the
loader inspects. -/
structure ExtractDoc where
  filename : String
  content : String
  error : Option String

/-- A directory entry found by the glob patterns of `load_local_data`
(ingest.py:168-172): its stem (filename without extension) and suffix. -/
structure FileEntry where
  stem : String
  suffix : String

/-- The result of `load_local_data` (ingest.py:151-159): `files_data` is the
insertion-ordered dict keyed by file stem, `errors` the ordered error list,
and the three summary counters. -/
structure LoadResult where
  files_data : List (String × ExtractDoc)
  errors : List String
  total_files : Nat
  successful : Nat
  failed : Nat

/-- The empty `result` dict of `load_local_data` (ingest.py:151-159). -/
def initLoadResult : LoadResult :=
  { files_data := [], errors := [], total_files := 0, successful := 0, failed := 0 }

/-- Python dict assignment `d[k] = v`: update in place if the key exists,
otherwise append, preserving insertion order. -/
def dictInsert (k : String) (v : ExtractDoc) :
    List (String × ExtractDoc) → List (String × ExtractDoc)
  | [] => [(k, v)]
  | (k', v') :: rest =>
    if k' = k then (k, v) :: rest else (k', v') :: dictInsert k v rest

/-- One iteration of the file loop of `load_local_data` (ingest.py:176-191):
dispatch on the lower-cased suffix (other suffixes `continue`); an extraction
error appends `"{name}: {error}"` to `errors` and bumps `failed`; otherwise
the document is stored under its stem and `successful` is bumped. -/
def load_step (extractPdf extractTxt : FileEntry → ExtractDoc)
    (acc : LoadResult) (f : FileEntry) : LoadResult :=
  let fd? : Option ExtractDoc :=
    if pyLower f.suffix = ".pdf" then some (extractPdf f)
    else if pyLower f.suffix = ".txt" then some (extractTxt f)
    else none
  match fd? with
  | none => acc
  | some fd =>
    match fd.error with
    | some m =>
      { acc with errors := acc.errors ++ [f.stem ++ f.suffix ++ ": " ++ m]
               , failed := acc.failed + 1 }
    | none =>
      { acc with files_data := dictInsert f.stem fd acc.files_data
               , successful := acc.successful + 1 }

/-- `ingest.load_local_data` (ingest.py:138-200).  The filesystem is
abstracted by `dirExists`, the globbed file list (pdf pattern results
followed by txt pattern results), and the two extractor oracles.  A missing
directory short-circuits with a single error; otherwise `total_files` is the
number of globbed files and each file is processed by `load_step`. -/
def load_local_data (dirExists : Bool) (files : List FileEntry)
    (extractPdf extractTxt : FileEntry → ExtractDoc) : LoadResult :=
  if dirExists then
    { files.foldl (load_step extractPdf extractTxt) initLoadResult with
        total_files := files.length }
  else
    { initLoadResult with errors := ["Directory not found"] }

/-- The parsed content of one disk-cache file for `load_json_cache`:
`malformed` models a missing/unparsable/unreadable JSON body (any exception in
the `try`), `withTs` a dict carrying an ISO timestamp and the cached payload
as written by `save_json_cache`, and `noTs` a dict without a `timestamp`
key. -/
inductive CacheFile where
  | malformed : CacheFile
  | withTs : Int → JVal → CacheFile
  | noTs : JVal → CacheFile

/-- `utils.load_json_cache` (utils.py:131-162).  The filesystem is a map from
path to optional file content; `now` is the current instant and `ttl` the
configured `CACHE_TTL`, in seconds.  Returns `none` when the file is missing,
malformed, or its age exceeds the TTL; otherwise the loaded dict, i.e. the
optional timestamp together with the payload stored under `data`. -/
def load_json_cache (now ttl : Int) (fs : String → Option CacheFile)
    (cache_file : String) : Option (Option Int × JVal) :=
  match fs cache_file with
  | none => none
  | some .malformed => none
  | some (.withTs ts payload) =>
    if now - ts > ttl then none else some (some ts, payload)
  | some (.noTs payload) => some (none, payload)

/-- `utils.save_json_cache` (utils.py:164-193), successful-write path: stamps
the current time, overwrites any entry at that path, and returns `True`.
The new filesystem is returned alongside the Boolean result. -/
def save_json_cache (now : Int) (fs : String → Option CacheFile)
    (cache_file : String) (data : JVal) : (String → Option CacheFile) × Bool :=
  (fun p => if p = cache_file then some (.withTs now data) else fs p, true)

/-- The update of the process-wide `_compressed_context_cache` performed by
one run of `app.chat` (app.py:145-163): with an empty cache the fresh
compression result is stored only when its `successful` field is truthy; with
a populated cache the cached entry is reused (the appended-query copy is a
`copy()`, so the cache itself is unchanged). -/
def chat_cache_update (cache : Option PyResult) (fresh : PyResult) : Option PyResult :=
  match cache with
  | none => if pyTruthy fresh.successful then some fresh else none
  | some c => some c

/-- The clearing of `_compressed_context_cache` performed by
`app.reload_context` (app.py:224-236). -/
def reload_context_cache (_cache : Option PyResult) : Option PyResult := none

/-- The cache invariant of claim C9: a populated compression cache holds only
a result whose `successful` field is truthy. -/
def CompressionCacheInv (cache : Option PyResult) : Prop :=
  ∀ r, cache = some r → pyTruthy r.successful = true

/-- A well-formed compression-service response body, per the interface
contract: nested `results.compressed_prompt` plus integral token/latency
counts and a Boolean `successful` flag. -/
def wellFormedResponse (cp : String) (ot ct lm : Int) (sf : Bool) : JVal := .jobj
  [ ("results", .jobj [("compressed_prompt", .jstr cp)])
  , ("total_original_tokens", .jnum ot)
  , ("total_compressed_tokens", .jnum ct)
  , ("latency_ms", .jnum lm)
  , ("successful", .jbool sf) ]

/-- The `result` dict right after the five field assignments of `compress`
(scaledown.py:124-128) on a well-formed response. -/
def wfRecord (cp : String) (ot ct lm : Int) (sf : Bool) : PyResult :=
  { initResult with
      compressed_prompt := .jstr cp
      , original_tokens := .jnum ot
      , compressed_tokens := .jnum ct
      , latency_ms := .jnum lm
      , successful := .jbool sf }

/-- The extractor dispatch of the file loop (ingest.py:179-184): `.pdf`
files go to the PDF extractor, `.txt` files to the TXT extractor. -/
def extractOf (ep et : FileEntry → ExtractDoc) (f : FileEntry) : ExtractDoc :=
  if pyLower f.suffix = ".pdf" then ep f else et f

/-- A nonempty string has positive length. -/
theorem strLenPos (s : String) (h : s ≠ "") : 0 < s.length := by
  cases s with
  | mk data =>
    cases data with
    | nil => exact absurd rfl h
    | cons c cs => simp [String.length]

/-- Appending to a nonempty string yields a nonempty string. -/
theorem strAppendLeftNe (a b : String) (h : a ≠ "") : a ++ b ≠ "" := by
  cases a with
  | mk da =>
    cases b with
    | mk db =>
      cases da with
      | nil => exact absurd rfl h
      | cons c cs => intro hc; exact String.noConfusion hc (fun hd => List.noConfusion hd)

/-- On a well-formed response, the statement sequence of `compress` after the
parse amounts to: assign the five fields, then run the ratio computation and
the statistics formatting. -/
theorem processResponse_wf (ctx q cp : String) (ot ct lm : Int) (sf : Bool) :
    processResponse ctx q initResult (wellFormedResponse cp ot ct lm sf) =
      (match ratioPhase ctx q (wfRecord cp ot ct lm sf) with
       | .error m => (wfRecord cp ot ct lm sf, some m)
       | .ok r' =>
         match formatStatsPhase r' with
         | .error m => (r', some m)
         | .ok _ => (r', none)) := rfl

/-- Value of the ratio computation when both token fields are integers and
the compressed prompt is a string: the token quotient when both counts are
positive, else the character-length estimate for a truthy prompt, else no
change. -/
theorem ratioPhase_nums (ctx q cp : String) (ot ct : Int) (r : PyResult)
    (h1 : r.original_tokens = .jnum ot) (h2 : r.compressed_tokens = .jnum ct)
    (h3 : r.compressed_prompt = .jstr cp) :
    ratioPhase ctx q r =
      if 0 < ot ∧ 0 < ct then
        .ok { r with compressionRat := (ot : Rat) / (ct : Rat) }
      else if cp ≠ "" then
        .ok { r with compressionRat :=
          if 0 < cp.length then ((ctx.length + q.length : Nat) : Rat) / ((cp.length : Nat) : Rat)
          else 1 }
      else .ok r := by
  by_cases hot : 0 < ot
  · by_cases hct : 0 < ct
    · simp [ratioPhase, h1, h2, h3, pyGt0, pyToIntOrd, pyDivQ, hot, hct, hct.ne']
    · by_cases hcp : cp = ""
      · simp [ratioPhase, h1, h2, h3, pyGt0, pyToIntOrd, pyTruthy, pyLen, hot, hct, hcp]
      · simp [ratioPhase, h1, h2, h3, pyGt0, pyToIntOrd, pyTruthy, pyLen, hot, hct, hcp]
  · by_cases hcp : cp = ""
    · simp [ratioPhase, h1, h2, h3, pyGt0, pyToIntOrd, pyTruthy, pyLen, hot, hcp]
    · simp [ratioPhase, h1, h2, h3, pyGt0, pyToIntOrd, pyTruthy, pyLen, hot, hcp]

/-- The statistics formatting never raises when both token fields are
integers. -/
theorem formatStats_nums (ot ct : Int) (r : PyResult)
    (h1 : r.original_tokens = .jnum ot) (h2 : r.compressed_tokens = .jnum ct) :
    formatStatsPhase r = .ok () := by
  by_cases hot : 0 < ot <;>
    simp [formatStatsPhase, h1, h2, pyGt0, pyToIntOrd, pySub, hot]

/-- C2: with no API key configured, `compress` returns immediately — for
every context and question, and independently of any network outcome — the
result with `successful = false`, `error = "API key not configured"`, and
`compressed_prompt` equal to the naive concatenation
`context + "\n\nUser Query: " + question`, all other fields at their initial
values. -/
theorem C2_compress_no_api_key (url mdl rate : String) (tmo : Nat)
    (context prompt : String) (net net' : NetPhase) :
    (ScaledownCompressor.mk "" url mdl rate tmo).compress context prompt net =
      { compressed_prompt := .jstr (context ++ "\n\nUser Query: " ++ prompt)
      , original_tokens := .jnum 0
      , compressed_tokens := .jnum 0
      , compressionRat := 1
      , successful := .jbool false
      , error := some "API key not configured"
      , latency_ms := .jnum 0 } ∧
    (ScaledownCompressor.mk "" url mdl rate tmo).compress context prompt net =
      (ScaledownCompressor.mk "" url mdl rate tmo).compress context prompt net' :=
  ⟨rfl, rfl⟩

/-- C7: for a well-formed compression-service response, the computed ratio is
`originalTokens / compressedTokens` when both counts are positive; otherwise
the character-length estimate `(len(context)+len(question)) / len(prompt)`
when the compressed prompt is non-empty; otherwise it stays `1`. -/
theorem C7_compression_ratio (sc : ScaledownCompressor) (hk : sc.api_key ≠ "")
    (ctx q cp : String) (ot ct lm : Int) (sf : Bool) :
    ((0 < ot → 0 < ct →
      (sc.compress ctx q (.parsed (wellFormedResponse cp ot ct lm sf))).compressionRat
        = (ot : Rat) / (ct : Rat)) ∧
     (¬(0 < ot ∧ 0 < ct) → cp ≠ "" →
      (sc.compress ctx q (.parsed (wellFormedResponse cp ot ct lm sf))).compressionRat
        = ((ctx.length + q.length : Nat) : Rat) / ((cp.length : Nat) : Rat)) ∧
     (¬(0 < ot ∧ 0 < ct) → cp = "" →
      (sc.compress ctx q (.parsed (wellFormedResponse cp ot ct lm sf))).compressionRat = 1)) := by
  have hr : ratioPhase ctx q (wfRecord cp ot ct lm sf) =
      if 0 < ot ∧ 0 < ct then
        .ok { wfRecord cp ot ct lm sf with compressionRat := (ot : Rat) / (ct : Rat) }
      else if cp ≠ "" then
        .ok { wfRecord cp ot ct lm sf with compressionRat :=
          if 0 < cp.length then ((ctx.length + q.length : Nat) : Rat) / ((cp.length : Nat) : Rat)
          else 1 }
      else .ok (wfRecord cp ot ct lm sf) :=
    ratioPhase_nums ctx q cp ot ct _ rfl rfl rfl
  refine ⟨?_, ?_, ?_⟩
  · intro hot hct
    simp only [ScaledownCompressor.compress, if_neg hk, processResponse_wf, hr,
      if_pos (And.intro hot hct)]
    rw [formatStats_nums ot ct _ rfl rfl]
  · intro hno hcp
    have hlen : 0 < cp.length := strLenPos cp hcp
    simp only [ScaledownCompressor.compress, if_neg hk, processResponse_wf, hr,
      if_neg hno, if_pos hcp, if_pos hlen]
    rw [formatStats_nums ot ct _ rfl rfl]
  · intro hno hcp
    subst hcp
    have hf : formatStatsPhase (wfRecord "" ot ct lm sf) = .ok () :=
      formatStats_nums ot ct _ rfl rfl
    simp only [ScaledownCompressor.compress, if_neg hk, processResponse_wf, hr,
      if_neg hno, ne_eq, not_true_eq_false, if_false, hf, Bool.false_eq_true, ite_false]
    simp [wfRecord, initResult, hf]

/-- C7 witness: a response with 1000 original and 250 compressed tokens gives
ratio 4. -/
theorem C7_compression_ratio_witness :
    ((ScaledownCompressor.mk "key" "url" "gemini" "auto" 30).compress "ab" "c"
      (.parsed (wellFormedResponse "x" 1000 250 5 true))).compressionRat = 4 := by
  have h := (C7_compression_ratio (ScaledownCompressor.mk "key" "url" "gemini" "auto" 30)
    (by decide) "ab" "c" "x" 1000 250 5 true).1 (by norm_num) (by norm_num)
  rw [h]; norm_num

/-- The ratio computation, when it succeeds, never changes the `error`
field of the result. -/
theorem ratioPhase_ok_error (ctx q : String) (r r' : PyResult)
    (h : ratioPhase ctx q r = .ok r') : r'.error = r.error := by
  unfold ratioPhase at h
  repeat' split at h
  all_goals simp_all
  all_goals subst h; rfl

/-- The response processing never changes the `error` field of the result
it returns (errors are attached separately, by the `except` handler). -/
theorem processResponse_fst_error (ctx q : String) (r0 : PyResult) (data : JVal) :
    ((processResponse ctx q r0 data).1).error = r0.error := by
  unfold processResponse
  split
  case h_2 => rfl
  case h_1 fs =>
    split
    case h_2 => rfl
    case h_1 gs =>
      dsimp only []
      split
      case h_1 r' m heq => rfl
      case h_2 r' heq =>
        have := ratioPhase_ok_error ctx q _ r' heq
        split <;> simp [this]

/-- C1 (amended): with an API key configured, for every context, question and
failure category of the external call — timeout, transport error, non-2xx
HTTP status, unparsable response body, or an unexpected exception while
reading the parsed body — `compress` returns normally with a non-empty
category-specific error string and `compressed_prompt` equal to the naive
concatenation `context + "\n\nUser Query: " + question`; `successful` is
`False` in all of these categories, except that an unexpected exception
raised after the `successful` flag has already been extracted from the parsed
body (e.g. a type error while computing the ratio) leaves the extracted flag
in place. -/
theorem C1_compress_failure_contract (sc : ScaledownCompressor) (context prompt : String) (net : NetPhase)
    (hk : sc.api_key ≠ "") :
    (∀ m, (sc.compress context prompt net).error = some m →
        m ≠ "" ∧ (sc.compress context prompt net).compressed_prompt
          = .jstr (fallbackPrompt context prompt)) ∧
    ((net = .timeout ∨ (∃ s b, net = .httpError s b) ∨ (∃ m, net = .requestFailed m) ∨
      (∃ m, net = .jsonDecodeFailed m)) →
      (sc.compress context prompt net).successful = .jbool false ∧
      (sc.compress context prompt net).error ≠ none) ∧
    (∀ data, net = .parsed data → (∀ fs, data ≠ .jobj fs) →
      (sc.compress context prompt net).successful = .jbool false ∧
      (sc.compress context prompt net).error ≠ none) ∧
    (∀ data, net = .parsed data → (∀ gs, jget0 data "results" (.jobj []) ≠ .jobj gs) →
      (sc.compress context prompt net).successful = .jbool false ∧
      (sc.compress context prompt net).error ≠ none) := by
  refine ⟨?_, ?_, ?_, ?_⟩
  · intro m hm
    cases net with
    | timeout =>
      simp only [ScaledownCompressor.compress, if_neg hk] at hm ⊢
      obtain rfl : _ = m := Option.some_injective _ hm
      exact ⟨strAppendLeftNe _ _ (strAppendLeftNe _ _ (by decide)), by simp⟩
    | httpError s b =>
      simp only [ScaledownCompressor.compress, if_neg hk] at hm ⊢
      obtain rfl : _ = m := Option.some_injective _ hm
      exact ⟨strAppendLeftNe _ _ (strAppendLeftNe _ _ (strAppendLeftNe _ _ (by decide))), by simp⟩
    | requestFailed msg =>
      simp only [ScaledownCompressor.compress, if_neg hk] at hm ⊢
      obtain rfl : _ = m := Option.some_injective _ hm
      exact ⟨strAppendLeftNe _ _ (by decide), by simp⟩
    | jsonDecodeFailed msg =>
      simp only [ScaledownCompressor.compress, if_neg hk] at hm ⊢
      obtain rfl : _ = m := Option.some_injective _ hm
      exact ⟨strAppendLeftNe _ _ (by decide), by simp⟩
    | parsed data =>
      rcases hp : processResponse context prompt initResult data with ⟨r, mo⟩
      have herr := processResponse_fst_error context prompt initResult data
      rw [hp] at herr
      simp only [ScaledownCompressor.compress, if_neg hk, hp] at hm ⊢
      cases mo with
      | none =>
        simp only at hm
        rw [hm] at herr
        exact absurd herr.symm (by simp [initResult])
      | some mm =>
        simp only at hm
        obtain rfl : _ = m := Option.some_injective _ hm
        exact ⟨strAppendLeftNe _ _ (by decide), by simp⟩
  · rintro (rfl | ⟨s, b, rfl⟩ | ⟨m, rfl⟩ | ⟨m, rfl⟩) <;>
      simp only [ScaledownCompressor.compress, if_neg hk] <;>
      exact ⟨rfl, by simp⟩
  · intro data hnet hnobj
    subst hnet
    simp only [ScaledownCompressor.compress, if_neg hk]
    cases data with
    | jobj fs => exact absurd rfl (hnobj fs)
    | jnull => exact ⟨rfl, by simp [processResponse]⟩
    | jbool b => exact ⟨rfl, by simp [processResponse]⟩
    | jnum n => exact ⟨rfl, by simp [processResponse]⟩
    | jstr s => exact ⟨rfl, by simp [processResponse]⟩
    | jarr xs => exact ⟨rfl, by simp [processResponse]⟩
  · intro data hnet hres
    subst hnet
    simp only [ScaledownCompressor.compress, if_neg hk]
    cases data with
    | jobj fs =>
      rcases hg : jget0 (.jobj fs) "results" (.jobj []) with _ | b | n | s | xs | gs
      case jobj => exact absurd hg (hres gs)
      all_goals
        simp only [processResponse, hg]
        exact ⟨rfl, by simp⟩
    | jnull => exact ⟨rfl, by simp [processResponse]⟩
    | jbool b => exact ⟨rfl, by simp [processResponse]⟩
    | jnum n => exact ⟨rfl, by simp [processResponse]⟩
    | jstr s => exact ⟨rfl, by simp [processResponse]⟩
    | jarr xs => exact ⟨rfl, by simp [processResponse]⟩

/-- C1 counterexample: the claim "successful = false on every failure
category" is false as stated.  A 200-response whose body is valid JSON with
`successful: true` but a string-valued `total_original_tokens` makes the
ratio computation raise `TypeError` after `successful` has been assigned; the
catch-all handler then returns a failure result (populated error, fallback
prompt) whose `successful` field is `true`. -/
theorem C1_compress_failure_counterexample :
    ((ScaledownCompressor.mk "key" "url" "gemini" "auto" 30).compress "ctx" "q"
        (.parsed (.jobj
          [ ("results", .jobj [("compressed_prompt", .jstr "ok")])
          , ("total_original_tokens", .jstr "many")
          , ("successful", .jbool true)]))).error
      = some "Unexpected error in Scaledown compression: TypeError: str is not orderable with int" ∧
    ((ScaledownCompressor.mk "key" "url" "gemini" "auto" 30).compress "ctx" "q"
        (.parsed (.jobj
          [ ("results", .jobj [("compressed_prompt", .jstr "ok")])
          , ("total_original_tokens", .jstr "many")
          , ("successful", .jbool true)]))).successful = .jbool true ∧
    ((ScaledownCompressor.mk "key" "url" "gemini" "auto" 30).compress "ctx" "q"
        (.parsed (.jobj
          [ ("results", .jobj [("compressed_prompt", .jstr "ok")])
          , ("total_original_tokens", .jstr "many")
          , ("successful", .jbool true)]))).compressed_prompt
      = .jstr "ctx\n\nUser Query: q" :=
  ⟨rfl, rfl, rfl⟩

/-- C1 witness: the amended contract applied to a concrete timeout. -/
theorem C1_compress_failure_witness :
    ((ScaledownCompressor.mk "key" "url" "gemini" "auto" 30).compress "ctx" "q"
        .timeout).successful = .jbool false ∧
    ((ScaledownCompressor.mk "key" "url" "gemini" "auto" 30).compress "ctx" "q"
        .timeout).error ≠ none :=
  (C1_compress_failure_contract (ScaledownCompressor.mk "key" "url" "gemini" "auto" 30)
    "ctx" "q" .timeout (by decide)).2.1 (Or.inl rfl)

/-- C3: a `put` immediately followed by a `get` of the same key within the
TTL returns the identical payload; a `get` more than TTL seconds after the
`put` returns absent although the file still exists; a `get` of a missing or
malformed/unreadable entry returns absent (and, the functions being total,
never raises into the caller). -/
theorem C3_disk_cache_roundtrip (fs : String → Option CacheFile) (path : String)
    (payload : JVal) (t0 now ttl : Int) :
    (now - t0 ≤ ttl →
      load_json_cache now ttl (save_json_cache t0 fs path payload).1 path
        = some (some t0, payload)) ∧
    (now - t0 > ttl →
      load_json_cache now ttl (save_json_cache t0 fs path payload).1 path = none ∧
      (save_json_cache t0 fs path payload).1 path ≠ none) ∧
    (fs path = none → load_json_cache now ttl fs path = none) ∧
    (fs path = some .malformed → load_json_cache now ttl fs path = none) := by
  refine ⟨?_, ?_, ?_, ?_⟩
  · intro h
    simp [load_json_cache, save_json_cache, not_lt.mpr h]
  · intro h
    exact ⟨by simp [load_json_cache, save_json_cache, h], by simp [save_json_cache]⟩
  · intro h
    simp [load_json_cache, h]
  · intro h
    simp [load_json_cache, h]

/-- C3 witness: a concrete put/get round trip, within and after the TTL. -/
theorem C3_disk_cache_roundtrip_witness :
    load_json_cache 10 3600 (save_json_cache 0 (fun _ => none) "p" (.jnum 7)).1 "p"
      = some (some 0, .jnum 7) ∧
    load_json_cache 7200 3600 (save_json_cache 0 (fun _ => none) "p" (.jnum 7)).1 "p"
      = none :=
  ⟨(C3_disk_cache_roundtrip (fun _ => none) "p" (.jnum 7) 0 10 3600).1 (by norm_num),
   ((C3_disk_cache_roundtrip (fun _ => none) "p" (.jnum 7) 0 7200 3600).2.1 (by norm_num)).1⟩

/-- C9: the process-wide compression cache holds, whenever non-empty, only a
result whose `successful` flag is truthy: it is empty at startup, a `chat`
run stores a fresh result only when its `successful` field is truthy (so a
fallback result is never cached and the next request re-attempts
compression), and `reload-context` clears it. -/
theorem C9_compression_cache_invariant :
    CompressionCacheInv none ∧
    (∀ cache fresh, CompressionCacheInv cache →
      CompressionCacheInv (chat_cache_update cache fresh)) ∧
    (∀ cache, CompressionCacheInv (reload_context_cache cache)) ∧
    (∀ fresh, pyTruthy fresh.successful = false → chat_cache_update none fresh = none) := by
  refine ⟨?_, ?_, ?_, ?_⟩
  · intro r h
    cases h
  · intro cache fresh hinv r h
    cases cache with
    | none =>
      by_cases hs : pyTruthy fresh.successful
      · simp only [chat_cache_update, if_pos hs] at h
        obtain rfl : fresh = r := Option.some_injective _ h
        exact hs
      · simp only [chat_cache_update, if_neg hs] at h
        cases h
    | some c =>
      simp only [chat_cache_update] at h
      obtain rfl : c = r := Option.some_injective _ h
      exact hinv c rfl
  · intro cache r h
    cases h
  · intro fresh h
    simp [chat_cache_update, h]

/-- C9 witness: storing a failed result leaves the invariant intact (the
cache stays empty). -/
theorem C9_compression_cache_invariant_witness :
    CompressionCacheInv (chat_cache_update none initResult) :=
  C9_compression_cache_invariant.2.1 none initResult C9_compression_cache_invariant.1

/-- C10: for an existing regular `.txt` file where some attempted encoding
decodes but the decoded text sanitizes to the empty string, `extract`
returns `error = "Failed to decode text file"` with empty content — even
though decoding succeeded, as the recorded winning encoding shows. -/
theorem C10_txt_empty_sanitized_error (filename : String) (decode : String → Option PyStr)
    (c : PyStr) (e : String)
    (hdec : tryEncodings decode txtEncodings = some (c, e))
    (hsan : sanitize_text c = []) :
    extract_text_from_txt true true ".txt" filename decode =
      { filename := filename, content := [], encoding := some e,
        error := some "Failed to decode text file" } := by
  have hval : validate_file_path true true ".txt" ".txt" = true := by decide
  simp [extract_text_from_txt, hval, hdec, hsan]

/-- C10 witness: a whitespace-only text file decodes under utf-8 yet is
reported as a decode failure. -/
theorem C10_txt_empty_sanitized_error_witness :
    extract_text_from_txt true true ".txt" "empty.txt" (fun _ => some ("   ").data) =
      { filename := "empty.txt", content := [], encoding := some "utf-8",
        error := some "Failed to decode text file" } :=
  C10_txt_empty_sanitized_error "empty.txt" (fun _ => some ("   ").data)
    ("   ").data "utf-8" rfl (by decide)

theorem intercalate_single (sep a : List Char) : List.intercalate sep [a] = a := by
  simp [List.intercalate, List.intersperse]

theorem intercalate_cons_cons (sep a b : List Char) (t : List (List Char)) :
    List.intercalate sep (a :: b :: t) = a ++ sep ++ List.intercalate sep (b :: t) := by
  simp [List.intercalate, List.intersperse]

theorem isPre_append_self (p t : List Char) : isPre p (p ++ t) = true := by
  induction p with
  | nil => rfl
  | cons c cs ih => simp [isPre, ih]

theorem merge_data_localHeader (l : List FileDoc) (w : List ScrapedDoc) :
    ∃ t, merge_data l w = localHeader ++ t := by
  unfold merge_data
  rw [List.append_assoc]
  rcases h : localParts l ++ (if w.isEmpty then [] else [liveHeader] ++ webParts w)
    with _ | ⟨p, ps⟩
  · rw [List.append_nil, intercalate_single]
    exact ⟨[], (List.append_nil _).symm⟩
  · rw [List.singleton_append, intercalate_cons_cons]
    exact ⟨['\n'] ++ List.intercalate ['\n'] (p :: ps), by simp⟩

/-- C8: for every local corpus and scraped input, including both empty, the
merged context begins with the local-files section header and is non-empty,
so the caller's fatal no-context emptiness test can never fire on merge
output alone. -/
theorem C8_merge_nonempty (l : List FileDoc) (w : List ScrapedDoc) :
    isPre localHeader (merge_data l w) = true ∧ merge_data l w ≠ [] ∧
    app_no_context (merge_data l w) = false := by
  obtain ⟨t, ht⟩ := merge_data_localHeader l w
  have hne : localHeader ≠ ([] : List Char) := by decide
  refine ⟨?_, ?_, ?_⟩
  · rw [ht]; exact isPre_append_self _ _
  · rw [ht]
    intro hc
    exact hne (List.append_eq_nil.mp hc).1
  · simp only [app_no_context, ht]
    rw [Bool.eq_false_iff]
    intro hc
    rw [List.isEmpty_iff] at hc
    exact hne (List.append_eq_nil.mp hc).1

theorem isPre_decomp (p s : List Char) (h : isPre p s = true) : ∃ t, s = p ++ t := by
  induction p generalizing s with
  | nil => exact ⟨s, rfl⟩
  | cons c cs ih =>
    cases s with
    | nil => cases h
    | cons d ds =>
      simp only [isPre, Bool.and_eq_true, decide_eq_true_eq] at h
      obtain ⟨rfl, h2⟩ := h
      obtain ⟨t, rfl⟩ := ih ds h2
      exact ⟨t, rfl⟩

theorem occursIn_decomp (p s : List Char) (h : occursIn p s = true) :
    ∃ a b, s = a ++ (p ++ b) := by
  induction s with
  | nil =>
    obtain ⟨t, ht⟩ := isPre_decomp p [] h
    exact ⟨[], t, ht⟩
  | cons c cs ih =>
    simp only [occursIn, Bool.or_eq_true] at h
    rcases h with h | h
    · obtain ⟨t, ht⟩ := isPre_decomp p (c :: cs) h
      exact ⟨[], t, ht⟩
    · obtain ⟨a, b, hab⟩ := ih h
      exact ⟨c :: a, b, by rw [hab]; rfl⟩

theorem occursIn_nil (s : List Char) : occursIn [] s = true := by
  cases s <;> simp [occursIn, isPre]

theorem occursIn_intro (a p b : List Char) : occursIn p (a ++ (p ++ b)) = true := by
  induction a with
  | nil =>
    cases p with
    | nil => simpa using occursIn_nil b
    | cons c cs =>
      rw [List.nil_append, List.cons_append]
      simp only [occursIn, Bool.or_eq_true]
      exact Or.inl (isPre_append_self (c :: cs) b)
  | cons c cs ih =>
    simp only [List.cons_append, occursIn, Bool.or_eq_true]
    exact Or.inr ih

theorem intercalate_mem_decomp (sep p : List Char) (parts : List (List Char))
    (h : p ∈ parts) : ∃ a b, List.intercalate sep parts = a ++ (p ++ b) := by
  induction parts with
  | nil => cases h
  | cons q qs ih =>
    rcases List.mem_cons.mp h with rfl | hmem
    · cases qs with
      | nil => exact ⟨[], [], by rw [intercalate_single]; simp⟩
      | cons q' t =>
        rw [intercalate_cons_cons]
        exact ⟨[], sep ++ List.intercalate sep (q' :: t), by simp⟩
    · cases qs with
      | nil => cases hmem
      | cons q' t =>
        obtain ⟨a, b, hab⟩ := ih hmem
        rw [intercalate_cons_cons, hab]
        exact ⟨q ++ sep ++ a, b, by simp⟩

theorem splitNl_ne_nil (l : List Char) : splitNl l ≠ [] := by
  cases l with
  | nil => simp [splitNl]
  | cons c rest =>
    by_cases hc : c = '\n'
    · simp [splitNl, hc]
    · rcases h : splitNl rest with _ | ⟨x, xs⟩ <;> simp [splitNl, hc, h]

theorem splitNl_append_nl (u v : List Char) :
    splitNl (u ++ '\n' :: v) = splitNl u ++ splitNl v := by
  induction u with
  | nil => simp [splitNl]
  | cons c cs ih =>
    by_cases hc : c = '\n'
    · subst hc
      simp [splitNl, ih]
    · rcases h : splitNl cs with _ | ⟨x, xs⟩
      · exact absurd h (splitNl_ne_nil cs)
      · simp [splitNl, hc, ih, h]

theorem splitNl_nlfree (u : List Char) (h : ∀ c ∈ u, c ≠ '\n') : splitNl u = [u] := by
  induction u with
  | nil => rfl
  | cons c cs ih =>
    have hc : c ≠ '\n' := h c (List.mem_cons_self c cs)
    have ih' := ih (fun d hd => h d (List.mem_cons_of_mem _ hd))
    simp [splitNl, hc, ih']

theorem mem_tail_splitNl (A core B : List Char) (hnl : ∀ c ∈ core, c ≠ '\n') :
    core ∈ (splitNl (A ++ '\n' :: (core ++ '\n' :: B))).tail := by
  rw [splitNl_append_nl, splitNl_append_nl, splitNl_nlfree core hnl]
  rcases h : splitNl A with _ | ⟨x, xs⟩
  · exact absurd h (splitNl_ne_nil A)
  · simp

theorem splitNl_intercalate (p : List Char) (ps : List (List Char)) :
    splitNl (List.intercalate ['\n'] (p :: ps)) = splitNl p ++ (ps.map splitNl).flatten := by
  induction ps generalizing p with
  | nil => simp [intercalate_single]
  | cons q t ih =>
    rw [intercalate_cons_cons]
    rw [show p ++ ['\n'] ++ List.intercalate ['\n'] (q :: t)
        = p ++ ('\n' :: List.intercalate ['\n'] (q :: t)) by simp]
    rw [splitNl_append_nl, ih]
    simp

theorem localParts_mem (l : List FileDoc) (part : PyStr) (h : part ∈ localParts l) :
    ∃ f ∈ l, part = fileSubheader f ∨ part = f.content := by
  unfold localParts at h
  obtain ⟨chunk, hchunk, hpart⟩ := List.mem_flatten.mp h
  obtain ⟨f, hf, rfl⟩ := List.mem_map.mp hchunk
  simp only [List.mem_cons, List.mem_singleton] at hpart
  rcases hpart with h1 | h1 | h1
  · exact ⟨f, hf, Or.inl h1⟩
  · exact ⟨f, hf, Or.inr h1⟩
  · cases h1

theorem splitNl_fileSubheader (f : FileDoc) (hfn : ∀ c ∈ f.filename, c ≠ '\n') :
    splitNl (fileSubheader f) =
      [[], ("--- ").data ++ f.filename ++ ([' ', '-', '-', '-'] : List Char), []] := by
  have heq : fileSubheader f
      = '\n' :: ((("--- ").data ++ f.filename ++ ([' ', '-', '-', '-'] : List Char)) ++ '\n' :: []) := by
    simp only [fileSubheader,
      show ("\n--- ").data = '\n' :: ("--- ").data from rfl,
      show (" ---\n").data = ([' ', '-', '-', '-'] : List Char) ++ '\n' :: [] from rfl,
      List.cons_append, List.append_assoc, List.nil_append]
  rw [heq]
  have hstep : splitNl ('\n' :: ((("--- ").data ++ f.filename ++ ([' ', '-', '-', '-'] : List Char)) ++ '\n' :: []))
      = [] :: splitNl ((("--- ").data ++ f.filename ++ ([' ', '-', '-', '-'] : List Char)) ++ '\n' :: []) := by
    simp [splitNl]
  rw [hstep, splitNl_append_nl]
  have hd : ∀ c ∈ ("--- ").data ++ f.filename ++ ([' ', '-', '-', '-'] : List Char), c ≠ '\n' := by
    intro c hc
    simp only [List.mem_append] at hc
    rcases hc with (hc | hc) | hc
    · simp only [List.mem_cons, List.not_mem_nil, or_false] at hc
      rcases hc with rfl | rfl | rfl | rfl <;> decide
    · exact hfn c hc
    · simp only [List.mem_cons, List.not_mem_nil, or_false] at hc
      rcases hc with rfl | rfl | rfl | rfl <;> decide
  rw [splitNl_nlfree _ hd]
  rfl

/-- Core of C5 (amended part): when no scraped data is present, the live-data
header does not occur in the merge output, provided the document contents and
filenames are newline-free (as sanitization guarantees) and no content equals
the header's text line. -/
theorem merge_no_live_header (l : List FileDoc)
    (hprov : ∀ f ∈ l, (∀ c ∈ f.content, c ≠ '\n') ∧ (∀ c ∈ f.filename, c ≠ '\n') ∧
      f.content ≠ liveCore) :
    occursIn liveHeader (merge_data l []) = false := by
  by_contra hocc
  rw [Bool.not_eq_false] at hocc
  obtain ⟨a, b, hab⟩ := occursIn_decomp _ _ hocc
  have hlh : liveHeader ++ b = '\n' :: ('\n' :: (liveCore ++ ('\n' :: b))) := rfl
  rw [hlh] at hab
  have hab2 : merge_data l [] = (a ++ ['\n']) ++ ('\n' :: (liveCore ++ ('\n' :: b))) := by
    rw [hab]; simp
  have hmem : liveCore ∈ (splitNl (merge_data l [])).tail := by
    rw [hab2]
    exact mem_tail_splitNl (a ++ ['\n']) liveCore b (by decide)
  have hmem2 : liveCore ∈ splitNl (merge_data l []) := by
    rcases hsp : splitNl (merge_data l []) with _ | ⟨x, xs⟩
    · rw [hsp] at hmem; cases hmem
    · rw [hsp] at hmem; exact List.mem_cons_of_mem x hmem
  have hform : merge_data l [] = List.intercalate ['\n'] (localHeader :: localParts l) := by
    unfold merge_data
    simp
  rw [hform, splitNl_intercalate] at hmem2
  have hH : splitNl localHeader = [("=== UNIVERSITY DATA FROM LOCAL FILES ===").data, []] := by
    decide
  rw [hH] at hmem2
  rcases List.mem_append.mp hmem2 with hmem3 | hmem3
  · rcases List.mem_cons.mp hmem3 with h1 | h1
    · exact absurd h1 (by decide)
    · rcases List.mem_cons.mp h1 with h2 | h2
      · exact absurd h2 (by decide)
      · cases h2
  · obtain ⟨lines, hlines, hmem4⟩ := List.mem_flatten.mp hmem3
    obtain ⟨part, hpart, rfl⟩ := List.mem_map.mp hlines
    obtain ⟨f, hf, hdisj⟩ := localParts_mem l part hpart
    obtain ⟨hc, hn, hne⟩ := hprov f hf
    rcases hdisj with rfl | rfl
    · rw [splitNl_fileSubheader f hn] at hmem4
      rcases List.mem_cons.mp hmem4 with h1 | h1
      · exact absurd h1 (by decide)
      · rcases List.mem_cons.mp h1 with h2 | h2
        · have hhead := congrArg (fun x => x.head?) h2
          simp only [show liveCore.head? = some '=' from rfl,
            show ((("--- ").data ++ f.filename ++ ([' ', '-', '-', '-'] : List Char))).head?
              = some '-' from rfl] at hhead
          exact absurd (Option.some_injective _ hhead) (by decide)
        · rcases List.mem_cons.mp h2 with h3 | h3
          · exact absurd h3 (by decide)
          · cases h3
    · rw [splitNl_nlfree f.content hc] at hmem4
      exact hne (List.mem_singleton.mp hmem4).symm

/-- C5 (amended): if the scraped input is empty, the merge output does not
contain the live-data section header — provided no local document's content
equals the header's text line `=== LIVE DATA FROM UNIVERSITY WEBSITE ===`
and contents and filenames are newline-free, as sanitization guarantees; if
the scraped input is non-empty, the local-files header occurs at position 0,
the live-data header occurs, and not at position 0, so the local section
strictly precedes the live section; and the output is deterministic given
identical inputs in identical order. -/
theorem C5_merge_sections (l : List FileDoc) (w : List ScrapedDoc) :
    ((∀ f ∈ l, (∀ c ∈ f.content, c ≠ '\n') ∧ (∀ c ∈ f.filename, c ≠ '\n') ∧
        f.content ≠ liveCore) →
      w = [] → occursIn liveHeader (merge_data l w) = false) ∧
    (w ≠ [] →
      isPre localHeader (merge_data l w) = true ∧
      occursIn liveHeader (merge_data l w) = true ∧
      isPre liveHeader (merge_data l w) = false) ∧
    (∀ l' w', l = l' → w = w' → merge_data l w = merge_data l' w') := by
  refine ⟨?_, ?_, ?_⟩
  · intro hprov hw
    subst hw
    exact merge_no_live_header l hprov
  · intro hw
    have hwe : w.isEmpty = false := by
      cases w with
      | nil => exact absurd rfl hw
      | cons s ws => rfl
    refine ⟨?_, ?_, ?_⟩
    · obtain ⟨t, ht⟩ := merge_data_localHeader l w
      rw [ht]
      exact isPre_append_self _ _
    · have hmem : liveHeader ∈ [localHeader] ++ localParts l ++
          (if w.isEmpty then [] else [liveHeader] ++ webParts w) := by
        rw [hwe]
        simp
      obtain ⟨a, b, hab⟩ := intercalate_mem_decomp ['\n'] liveHeader _ hmem
      unfold merge_data
      rw [hab]
      exact occursIn_intro a liveHeader b
    · obtain ⟨t, ht⟩ := merge_data_localHeader l w
      rw [ht,
        show localHeader = '=' :: ("== UNIVERSITY DATA FROM LOCAL FILES ===\n").data from rfl,
        show liveHeader = '\n' :: ("\n=== LIVE DATA FROM UNIVERSITY WEBSITE ===\n").data from rfl,
        List.cons_append]
      simp [isPre]
  · intro l' w' h1 h2
    subst h1
    subst h2
    rfl

/-- C5 counterexample: the claim as stated ("never contains the live-data
header") is false: a local document whose sanitized content is exactly the
header's text line, followed by another document, makes the emitted
`"\n\n=== LIVE DATA FROM UNIVERSITY WEBSITE ===\n"` a substring of
`merge(local, empty)`. -/
theorem C5_merge_counterexample :
    occursIn liveHeader
      (merge_data [⟨("evil.txt").data, liveCore⟩, ⟨("b.txt").data, ("x").data⟩] []) = true := by
  decide

/-- C5 witness: the amended claim applied to a concrete corpus, with empty
and with non-empty scraped data. -/
theorem C5_merge_sections_witness :
    occursIn liveHeader (merge_data [⟨("a.txt").data, ("hello").data⟩] []) = false ∧
    isPre localHeader
      (merge_data [⟨("a.txt").data, ("hello").data⟩] [⟨("u").data, ("w").data⟩]) = true :=
  ⟨(C5_merge_sections [⟨("a.txt").data, ("hello").data⟩] []).1 (by decide) rfl,
   ((C5_merge_sections [⟨("a.txt").data, ("hello").data⟩] [⟨("u").data, ("w").data⟩]).2.1
      (by simp)).1⟩

theorem load_step_char (ep et : FileEntry → ExtractDoc) (acc : LoadResult) (f : FileEntry)
    (hsuf : f.suffix = ".pdf" ∨ f.suffix = ".txt") :
    load_step ep et acc f =
      match (extractOf ep et f).error with
      | some m =>
        { acc with errors := acc.errors ++ [f.stem ++ f.suffix ++ ": " ++ m]
                 , failed := acc.failed + 1 }
      | none =>
        { acc with files_data := dictInsert f.stem (extractOf ep et f) acc.files_data
                 , successful := acc.successful + 1 } := by
  rcases hsuf with h | h
  · simp [load_step, extractOf, h, show pyLower ".pdf" = ".pdf" from by decide]
  · simp [load_step, extractOf, h, show pyLower ".txt" = ".txt" from by decide,
      show ¬ ((".txt" : String) = ".pdf") from by decide]

theorem load_foldl_counts (ep et : FileEntry → ExtractDoc) (files : List FileEntry)
    (acc : LoadResult)
    (hsuf : ∀ f ∈ files, f.suffix = ".pdf" ∨ f.suffix = ".txt") :
    (files.foldl (load_step ep et) acc).errors.length
        = acc.errors.length + files.countP (fun f => !(extractOf ep et f).error.isNone) ∧
    (files.foldl (load_step ep et) acc).failed
        = acc.failed + files.countP (fun f => !(extractOf ep et f).error.isNone) ∧
    (files.foldl (load_step ep et) acc).successful
        = acc.successful + files.countP (fun f => (extractOf ep et f).error.isNone) := by
  induction files generalizing acc with
  | nil => simp
  | cons f fs ih =>
    have hf := hsuf f (List.mem_cons_self f fs)
    have hfs : ∀ g ∈ fs, g.suffix = ".pdf" ∨ g.suffix = ".txt" :=
      fun g hg => hsuf g (List.mem_cons_of_mem f hg)
    obtain ⟨h1, h2, h3⟩ := ih (load_step ep et acc f) hfs
    rcases herr : (extractOf ep et f).error with _ | m
    · have hstep : load_step ep et acc f =
          { acc with files_data := dictInsert f.stem (extractOf ep et f) acc.files_data
                   , successful := acc.successful + 1 } := by
        rw [load_step_char ep et acc f hf, herr]
      rw [hstep] at h1 h2 h3
      refine ⟨?_, ?_, ?_⟩
      · rw [List.foldl_cons, hstep, h1]
        simp [List.countP_cons, herr]
      · rw [List.foldl_cons, hstep, h2]
        simp [List.countP_cons, herr]
      · rw [List.foldl_cons, hstep, h3]
        simp [List.countP_cons, herr]
        omega
    · have hstep : load_step ep et acc f =
          { acc with errors := acc.errors ++ [f.stem ++ f.suffix ++ ": " ++ m]
                   , failed := acc.failed + 1 } := by
        rw [load_step_char ep et acc f hf, herr]
      rw [hstep] at h1 h2 h3
      refine ⟨?_, ?_, ?_⟩
      · rw [List.foldl_cons, hstep, h1]
        simp [List.countP_cons, herr]
        omega
      · rw [List.foldl_cons, hstep, h2]
        simp [List.countP_cons, herr]
        omega
      · rw [List.foldl_cons, hstep, h3]
        simp [List.countP_cons, herr]

theorem dictInsert_new_key (k : String) (v : ExtractDoc) (d : List (String × ExtractDoc))
    (h : k ∉ d.map Prod.fst) : dictInsert k v d = d ++ [(k, v)] := by
  induction d with
  | nil => rfl
  | cons p rest ih =>
    have hk : p.1 ≠ k := by
      intro hc
      exact h (by simp [hc.symm])
    have hrest : k ∉ rest.map Prod.fst := fun hc => h (by simp [hc])
    cases p with
    | mk k' v' =>
      simp only [dictInsert, if_neg hk, List.cons_append, ih hrest]

theorem load_foldl_keys (ep et : FileEntry → ExtractDoc) (files : List FileEntry)
    (acc : LoadResult)
    (hsuf : ∀ f ∈ files, f.suffix = ".pdf" ∨ f.suffix = ".txt")
    (hnodup : ((files.filter (fun f => (extractOf ep et f).error.isNone)).map
        (fun f => f.stem)).Nodup)
    (hfresh : ∀ f ∈ files, (extractOf ep et f).error.isNone →
      f.stem ∉ acc.files_data.map Prod.fst) :
    (files.foldl (load_step ep et) acc).files_data.map Prod.fst
      = acc.files_data.map Prod.fst ++
        (files.filter (fun f => (extractOf ep et f).error.isNone)).map (fun f => f.stem) := by
  induction files generalizing acc with
  | nil => simp
  | cons f fs ih =>
    have hf := hsuf f (List.mem_cons_self f fs)
    have hfs : ∀ g ∈ fs, g.suffix = ".pdf" ∨ g.suffix = ".txt" :=
      fun g hg => hsuf g (List.mem_cons_of_mem f hg)
    rcases herr : (extractOf ep et f).error with _ | m
    · have hok : (extractOf ep et f).error.isNone = true := by rw [herr]; rfl
      have hfilter : (f :: fs).filter (fun f => (extractOf ep et f).error.isNone)
          = f :: fs.filter (fun f => (extractOf ep et f).error.isNone) := by
        simp [List.filter_cons, hok]
      rw [hfilter] at hnodup
      simp only [List.map_cons, List.nodup_cons] at hnodup
      obtain ⟨hnotin, hnodup2⟩ := hnodup
      have hstep : load_step ep et acc f =
          { acc with files_data := dictInsert f.stem (extractOf ep et f) acc.files_data
                   , successful := acc.successful + 1 } := by
        rw [load_step_char ep et acc f hf, herr]
      have hkeys : (dictInsert f.stem (extractOf ep et f) acc.files_data).map Prod.fst
          = acc.files_data.map Prod.fst ++ [f.stem] := by
        rw [dictInsert_new_key _ _ _ (hfresh f (List.mem_cons_self f fs) hok)]
        simp
      have hfresh2 : ∀ g ∈ fs, (extractOf ep et g).error.isNone = true →
          g.stem ∉ (dictInsert f.stem (extractOf ep et f) acc.files_data).map Prod.fst := by
        intro g hg hgok
        rw [hkeys]
        simp only [List.mem_append, List.mem_singleton]
        rintro (hc | hc)
        · exact hfresh g (List.mem_cons_of_mem f hg) hgok hc
        · exact hnotin (hc ▸ List.mem_map.mpr ⟨g, List.mem_filter.mpr ⟨hg, hgok⟩, rfl⟩)
      have hih := ih ({ acc with
          files_data := dictInsert f.stem (extractOf ep et f) acc.files_data
          , successful := acc.successful + 1 }) hfs hnodup2 hfresh2
      rw [List.foldl_cons, hstep, hih, hfilter]
      simp [hkeys]
    · have hbad : (extractOf ep et f).error.isNone = false := by rw [herr]; rfl
      have hfilter : (f :: fs).filter (fun f => (extractOf ep et f).error.isNone)
          = fs.filter (fun f => (extractOf ep et f).error.isNone) := by
        simp [List.filter_cons, hbad]
      rw [hfilter] at hnodup
      have hstep : load_step ep et acc f =
          { acc with errors := acc.errors ++ [f.stem ++ f.suffix ++ ": " ++ m]
                   , failed := acc.failed + 1 } := by
        rw [load_step_char ep et acc f hf, herr]
      have hfresh2 : ∀ g ∈ fs, (extractOf ep et g).error.isNone = true →
          g.stem ∉ acc.files_data.map Prod.fst :=
        fun g hg hgok => hfresh g (List.mem_cons_of_mem f hg) hgok
      have hih := ih ({ acc with
          errors := acc.errors ++ [f.stem ++ f.suffix ++ ": " ++ m]
          , failed := acc.failed + 1 }) hfs hnodup hfresh2
      rw [List.foldl_cons, hstep, hih, hfilter]

theorem countP_not_add {α : Type} (p : α → Bool) (l : List α) :
    l.countP p + l.countP (fun a => !(p a)) = l.length := by
  induction l with
  | nil => rfl
  | cons a t ih => by_cases h : p a <;> simp [List.countP_cons, h] <;> omega

/-- C4 (amended): over an existing directory whose globbed files all carry a
`.pdf` or `.txt` suffix, with N files whose extraction succeeds and M whose
extraction fails, `load_local_data` reports exactly M error entries, M
failures, N successes, and N+M total files — for every listing order; and
provided the successfully extracted files have pairwise distinct stems, the
`files_data` mapping holds exactly N documents. -/
theorem C4_load_local_counts (ep et : FileEntry → ExtractDoc) (files : List FileEntry)
    (hsuf : ∀ f ∈ files, f.suffix = ".pdf" ∨ f.suffix = ".txt") :
    (load_local_data true files ep et).errors.length
        = files.countP (fun f => !(extractOf ep et f).error.isNone) ∧
    (load_local_data true files ep et).failed
        = files.countP (fun f => !(extractOf ep et f).error.isNone) ∧
    (load_local_data true files ep et).successful
        = files.countP (fun f => (extractOf ep et f).error.isNone) ∧
    (load_local_data true files ep et).total_files
        = files.countP (fun f => (extractOf ep et f).error.isNone)
          + files.countP (fun f => !(extractOf ep et f).error.isNone) ∧
    (((files.filter (fun f => (extractOf ep et f).error.isNone)).map
        (fun f => f.stem)).Nodup →
      (load_local_data true files ep et).files_data.length
        = files.countP (fun f => (extractOf ep et f).error.isNone)) := by
  obtain ⟨h1, h2, h3⟩ := load_foldl_counts ep et files initLoadResult hsuf
  have hload : load_local_data true files ep et =
      { files.foldl (load_step ep et) initLoadResult with total_files := files.length } := by
    simp [load_local_data]
  refine ⟨?_, ?_, ?_, ?_, ?_⟩
  · rw [hload]
    simpa [initLoadResult] using h1
  · rw [hload]
    simpa [initLoadResult] using h2
  · rw [hload]
    simpa [initLoadResult] using h3
  · rw [hload]
    exact (countP_not_add (fun f => (extractOf ep et f).error.isNone) files).symm
  · intro hnodup
    have hkeys := load_foldl_keys ep et files initLoadResult hsuf hnodup
      (by intro f hf hok; simp [initLoadResult])
    have hlen := congrArg List.length hkeys
    simp only [List.length_map, List.length_append, List.length_nil, initLoadResult] at hlen
    rw [hload]
    show (List.foldl (load_step ep et) initLoadResult files).files_data.length = _
    simp only [initLoadResult]
    rw [hlen, List.countP_eq_length_filter]
    omega

/-- C4 counterexample: the claim as stated is false: two successfully
extracted files sharing the stem `a` (`a.pdf` and `a.txt`) count as 2
successes but produce a documents mapping with a single entry, because the
mapping is keyed by the stem and the second assignment overwrites the
first. -/
theorem C4_load_local_counterexample :
    (load_local_data true [⟨"a", ".pdf"⟩, ⟨"a", ".txt"⟩]
        (fun f => ⟨f.stem ++ f.suffix, "ok", none⟩)
        (fun f => ⟨f.stem ++ f.suffix, "ok", none⟩)).successful = 2 ∧
    (load_local_data true [⟨"a", ".pdf"⟩, ⟨"a", ".txt"⟩]
        (fun f => ⟨f.stem ++ f.suffix, "ok", none⟩)
        (fun f => ⟨f.stem ++ f.suffix, "ok", none⟩)).files_data.length = 1 := by
  decide

/-- C4 witness: one good pdf and one bad txt give one error, one success,
two total files and a one-entry mapping. -/
theorem C4_load_local_counts_witness :
    (load_local_data true [⟨"a", ".pdf"⟩, ⟨"b", ".txt"⟩]
        (fun f => ⟨f.stem ++ f.suffix, "ok", none⟩)
        (fun f => ⟨f.stem ++ f.suffix, "", some "boom"⟩)).errors.length = 1 ∧
    (load_local_data true [⟨"a", ".pdf"⟩, ⟨"b", ".txt"⟩]
        (fun f => ⟨f.stem ++ f.suffix, "ok", none⟩)
        (fun f => ⟨f.stem ++ f.suffix, "", some "boom"⟩)).successful = 1 ∧
    (load_local_data true [⟨"a", ".pdf"⟩, ⟨"b", ".txt"⟩]
        (fun f => ⟨f.stem ++ f.suffix, "ok", none⟩)
        (fun f => ⟨f.stem ++ f.suffix, "", some "boom"⟩)).total_files = 2 ∧
    (load_local_data true [⟨"a", ".pdf"⟩, ⟨"b", ".txt"⟩]
        (fun f => ⟨f.stem ++ f.suffix, "ok", none⟩)
        (fun f => ⟨f.stem ++ f.suffix, "", some "boom"⟩)).files_data.length = 1 := by
  have h := C4_load_local_counts
    (fun f => ⟨f.stem ++ f.suffix, "ok", none⟩)
    (fun f => ⟨f.stem ++ f.suffix, "", some "boom"⟩)
    [⟨"a", ".pdf"⟩, ⟨"b", ".txt"⟩]
    (by decide)
  exact ⟨h.1.trans (by decide), h.2.2.1.trans (by decide),
    (h.2.2.2.1).trans (by decide), (h.2.2.2.2 (by decide)).trans (by decide)⟩

theorem pyWordsAux_tokens_ne_nil (l : List Char) :
    ∀ acc t, t ∈ pyWordsAux l acc → t ≠ [] := by
  induction l with
  | nil =>
    intro acc t ht
    rcases acc with _ | ⟨a, as⟩
    · cases ht
    · rw [show pyWordsAux [] (a :: as) = [(a :: as).reverse] from rfl] at ht
      obtain rfl := List.mem_singleton.mp ht
      simp
  | cons c cs ih =>
    intro acc t ht
    by_cases hc : isPySpace c
    · rcases acc with _ | ⟨a, as⟩
      · rw [show pyWordsAux (c :: cs) [] = pyWordsAux cs [] by simp [pyWordsAux, hc]] at ht
        exact ih [] t ht
      · rw [show pyWordsAux (c :: cs) (a :: as)
            = (a :: as).reverse :: pyWordsAux cs [] by simp [pyWordsAux, hc]] at ht
        rcases List.mem_cons.mp ht with rfl | ht2
        · simp
        · exact ih [] t ht2
    · rw [show pyWordsAux (c :: cs) acc = pyWordsAux cs (c :: acc) by
        cases acc <;> simp [pyWordsAux, hc]] at ht
      exact ih (c :: acc) t ht

theorem pyWordsAux_tokens_spacefree (l : List Char) :
    ∀ acc, (∀ c ∈ acc, isPySpace c = false) →
      ∀ t ∈ pyWordsAux l acc, ∀ c ∈ t, isPySpace c = false := by
  induction l with
  | nil =>
    intro acc hacc t ht c hct
    rcases acc with _ | ⟨a, as⟩
    · cases ht
    · rw [show pyWordsAux [] (a :: as) = [(a :: as).reverse] from rfl] at ht
      obtain rfl := List.mem_singleton.mp ht
      exact hacc c (List.mem_reverse.mp hct)
  | cons d cs ih =>
    intro acc hacc t ht c hct
    by_cases hd : isPySpace d
    · rcases acc with _ | ⟨a, as⟩
      · rw [show pyWordsAux (d :: cs) [] = pyWordsAux cs [] by simp [pyWordsAux, hd]] at ht
        exact ih [] (by intro x hx; cases hx) t ht c hct
      · rw [show pyWordsAux (d :: cs) (a :: as)
            = (a :: as).reverse :: pyWordsAux cs [] by simp [pyWordsAux, hd]] at ht
        rcases List.mem_cons.mp ht with rfl | ht2
        · exact hacc c (List.mem_reverse.mp hct)
        · exact ih [] (by intro x hx; cases hx) t ht2 c hct
    · rw [show pyWordsAux (d :: cs) acc = pyWordsAux cs (d :: acc) by
        cases acc <;> simp [pyWordsAux, hd]] at ht
      have hacc2 : ∀ x ∈ d :: acc, isPySpace x = false := by
        intro x hx
        rcases List.mem_cons.mp hx with rfl | hx2
        · simpa using hd
        · exact hacc x hx2
      exact ih (d :: acc) hacc2 t ht c hct

theorem pyWordsAux_tokens_chars (l : List Char) :
    ∀ acc t c, t ∈ pyWordsAux l acc → c ∈ t → c ∈ l ∨ c ∈ acc := by
  induction l with
  | nil =>
    intro acc t c ht hct
    rcases acc with _ | ⟨a, as⟩
    · cases ht
    · rw [show pyWordsAux [] (a :: as) = [(a :: as).reverse] from rfl] at ht
      obtain rfl := List.mem_singleton.mp ht
      exact Or.inr (List.mem_reverse.mp hct)
  | cons d cs ih =>
    intro acc t c ht hct
    by_cases hd : isPySpace d
    · rcases acc with _ | ⟨a, as⟩
      · rw [show pyWordsAux (d :: cs) [] = pyWordsAux cs [] by simp [pyWordsAux, hd]] at ht
        rcases ih [] t c ht hct with h | h
        · exact Or.inl (List.mem_cons_of_mem d h)
        · cases h
      · rw [show pyWordsAux (d :: cs) (a :: as)
            = (a :: as).reverse :: pyWordsAux cs [] by simp [pyWordsAux, hd]] at ht
        rcases List.mem_cons.mp ht with rfl | ht2
        · exact Or.inr (List.mem_reverse.mp hct)
        · rcases ih [] t c ht2 hct with h | h
          · exact Or.inl (List.mem_cons_of_mem d h)
          · cases h
    · rw [show pyWordsAux (d :: cs) acc = pyWordsAux cs (d :: acc) by
        cases acc <;> simp [pyWordsAux, hd]] at ht
      rcases ih (d :: acc) t c ht hct with h | h
      · exact Or.inl (List.mem_cons_of_mem d h)
      · rcases List.mem_cons.mp h with rfl | h2
        · exact Or.inl (List.mem_cons_self c cs)
        · exact Or.inr h2

theorem pyWordsAux_skip_word (t : List Char) :
    ∀ rest acc, (∀ c ∈ t, isPySpace c = false) →
      pyWordsAux (t ++ rest) acc = pyWordsAux rest (t.reverse ++ acc) := by
  induction t with
  | nil => intro rest acc _; simp
  | cons c t' ih =>
    intro rest acc hsp
    have hc : isPySpace c = false := hsp c (List.mem_cons_self c t')
    have hsp' : ∀ x ∈ t', isPySpace x = false :=
      fun x hx => hsp x (List.mem_cons_of_mem c hx)
    rw [List.cons_append,
      show pyWordsAux (c :: (t' ++ rest)) acc = pyWordsAux (t' ++ rest) (c :: acc) by
        cases acc <;> simp [pyWordsAux, hc],
      ih rest (c :: acc) hsp']
    simp

theorem pyWords_intercalate (ts : List (List Char))
    (h : ∀ t ∈ ts, t ≠ [] ∧ ∀ c ∈ t, isPySpace c = false) :
    pyWords (List.intercalate [' '] ts) = ts := by
  induction ts with
  | nil => rfl
  | cons t ts' ih =>
    obtain ⟨hne, hsp⟩ := h t (List.mem_cons_self t ts')
    have h' : ∀ u ∈ ts', u ≠ [] ∧ ∀ c ∈ u, isPySpace c = false :=
      fun u hu => h u (List.mem_cons_of_mem t hu)
    rcases hrev : t.reverse with _ | ⟨a, as⟩
    · exact absurd (by simpa using congrArg List.reverse hrev) hne
    · cases ts' with
      | nil =>
        rw [intercalate_single]
        have hskip := pyWordsAux_skip_word t [] [] hsp
        rw [List.append_nil] at hskip
        unfold pyWords
        rw [hskip, List.append_nil, hrev,
          show pyWordsAux [] (a :: as) = [(a :: as).reverse] from rfl,
          ← hrev]
        simp
      | cons t2 ts'' =>
        rw [intercalate_cons_cons, List.append_assoc]
        unfold pyWords
        rw [pyWordsAux_skip_word t (([' '] : List Char) ++ List.intercalate [' '] (t2 :: ts'')) [] hsp,
          List.append_nil, hrev]
        rw [show pyWordsAux ((([' '] : List Char)) ++ List.intercalate [' '] (t2 :: ts'')) (a :: as)
            = (a :: as).reverse :: pyWordsAux (List.intercalate [' '] (t2 :: ts'')) [] by
          simp [pyWordsAux, isPySpace]]
        rw [← hrev]
        simp only [List.reverse_reverse]
        rw [show pyWordsAux (List.intercalate [' '] (t2 :: ts'')) [] = pyWords (List.intercalate [' '] (t2 :: ts'')) from rfl,
          ih h']

theorem removeNulls_id (u : List Char) (h : ∀ c ∈ u, c ≠ '\x00') : removeNulls u = u := by
  unfold removeNulls
  rw [List.filter_eq_self]
  intro a ha
  simpa using h a ha

theorem intercalate_head_nonspace (t : List Char) (ts : List (List Char))
    (c : Char) (t' : List Char) (ht : t = c :: t') :
    ∃ rest, List.intercalate [' '] (t :: ts) = c :: rest := by
  cases ts with
  | nil => exact ⟨t', by rw [intercalate_single, ht]⟩
  | cons t2 ts' =>
    rw [intercalate_cons_cons, ht]
    exact ⟨t' ++ [' '] ++ List.intercalate [' '] (t2 :: ts'), by simp⟩

theorem intercalate_last_nonspace (ts : List (List Char))
    (h : ∀ t ∈ ts, t ≠ [] ∧ ∀ c ∈ t, isPySpace c = false) (hne : ts ≠ []) :
    ∃ d rest, (List.intercalate [' '] ts).reverse = d :: rest ∧ isPySpace d = false := by
  induction ts with
  | nil => exact absurd rfl hne
  | cons t ts' ih =>
    obtain ⟨htne, hsp⟩ := h t (List.mem_cons_self t ts')
    have h' : ∀ u ∈ ts', u ≠ [] ∧ ∀ c ∈ u, isPySpace c = false :=
      fun u hu => h u (List.mem_cons_of_mem t hu)
    cases ts' with
    | nil =>
      rw [intercalate_single]
      rcases hrev : t.reverse with _ | ⟨d, rest⟩
      · exact absurd (by simpa using congrArg List.reverse hrev) htne
      · refine ⟨d, rest, rfl, ?_⟩
        have : d ∈ t.reverse := by rw [hrev]; exact List.mem_cons_self d rest
        exact hsp d (List.mem_reverse.mp this)
    | cons t2 ts'' =>
      obtain ⟨d, rest, hdrest, hd⟩ := ih h' (by simp)
      rw [intercalate_cons_cons]
      refine ⟨d, rest ++ ([' '] : List Char) ++ t.reverse, ?_, hd⟩
      rw [List.append_assoc, List.reverse_append, List.reverse_append, hdrest]
      simp

theorem pyStrip_intercalate (ts : List (List Char))
    (h : ∀ t ∈ ts, t ≠ [] ∧ ∀ c ∈ t, isPySpace c = false) :
    pyStrip (List.intercalate [' '] ts) = List.intercalate [' '] ts := by
  cases ts with
  | nil => rfl
  | cons t ts' =>
    obtain ⟨htne, hsp⟩ := h t (List.mem_cons_self t ts')
    obtain ⟨c, t', ht⟩ : ∃ c t', t = c :: t' := by
      cases t with
      | nil => exact absurd rfl htne
      | cons c t' => exact ⟨c, t', rfl⟩
    obtain ⟨rest, hhead⟩ := intercalate_head_nonspace t ts' c t' ht
    have hc : isPySpace c = false := hsp c (by rw [ht]; exact List.mem_cons_self c t')
    obtain ⟨d, rest2, hlast, hd⟩ := intercalate_last_nonspace (t :: ts') h (by simp)
    unfold pyStrip
    rw [hhead, List.dropWhile_cons, hc]
    simp only [Bool.false_eq_true, if_false]
    rw [← hhead, hlast, List.dropWhile_cons, hd]
    simp only [Bool.false_eq_true, if_false]
    rw [← hlast, List.reverse_reverse]

theorem intercalate_chars (ts : List (List Char)) (c : Char)
    (hc : c ∈ List.intercalate [' '] ts) : c = ' ' ∨ ∃ t ∈ ts, c ∈ t := by
  induction ts with
  | nil => cases hc
  | cons t ts' ih =>
    cases ts' with
    | nil =>
      rw [intercalate_single] at hc
      exact Or.inr ⟨t, List.mem_cons_self t [], hc⟩
    | cons t2 ts'' =>
      rw [intercalate_cons_cons] at hc
      rcases List.mem_append.mp hc with h1 | h1
      · rcases List.mem_append.mp h1 with h2 | h2
        · exact Or.inr ⟨t, List.mem_cons_self t (t2 :: ts''), h2⟩
        · exact Or.inl (List.mem_singleton.mp h2)
      · rcases ih h1 with h2 | ⟨u, hu, hcu⟩
        · exact Or.inl h2
        · exact Or.inr ⟨u, List.mem_cons_of_mem t hu, hcu⟩

/-- C6 (amended): sanitization is idempotent for every string containing no
null byte: `sanitize(sanitize(x)) == sanitize(x)`. -/
theorem C6_sanitize_idempotent_nullfree (x : PyStr) (hx : ∀ c ∈ x, c ≠ '\x00') :
    sanitize_text (sanitize_text x) = sanitize_text x := by
  by_cases hxe : x = []
  · subst hxe
    rfl
  · have hts : ∀ t ∈ pyWords x, t ≠ [] ∧ ∀ c ∈ t, isPySpace c = false := by
      intro t ht
      exact ⟨pyWordsAux_tokens_ne_nil x [] t ht,
        pyWordsAux_tokens_spacefree x [] (by intro c hc; cases hc) t ht⟩
    have hynn : ∀ c ∈ List.intercalate [' '] (pyWords x), c ≠ '\x00' := by
      intro c hcy
      rcases intercalate_chars (pyWords x) c hcy with rfl | ⟨t, ht, hct⟩
      · decide
      · rcases pyWordsAux_tokens_chars x [] t c ht hct with h | h
        · exact hx c h
        · cases h
    have hsx : sanitize_text x = List.intercalate [' '] (pyWords x) := by
      unfold sanitize_text
      rw [if_neg hxe, removeNulls_id _ hynn, pyStrip_intercalate _ hts]
    rw [hsx]
    by_cases hy : List.intercalate [' '] (pyWords x) = []
    · rw [hy]
      rfl
    · unfold sanitize_text
      rw [if_neg hy, pyWords_intercalate _ hts, removeNulls_id _ hynn,
        pyStrip_intercalate _ hts]

/-- C6 counterexample: idempotence fails on the code as stated: in
`"a \x00 b"` the null byte forms its own whitespace-delimited token, the
join rebuilds `"a \x00 b"`, and removing the null byte afterwards leaves the
double space `"a  b"`, which a second sanitization collapses to `"a b"`. -/
theorem C6_sanitize_counterexample :
    sanitize_text (sanitize_text ("a \x00 b").data) ≠ sanitize_text ("a \x00 b").data := by
  decide

/-- C6 witness: idempotence at a concrete null-free string. -/
theorem C6_sanitize_idempotent_witness :
    sanitize_text (sanitize_text ("hello   world ").data) = sanitize_text ("hello   world ").data :=
  C6_sanitize_idempotent_nullfree ("hello   world ").data (by decide)
